import Mathlib

/-!
Shallow embedding of the typescript/prefer_enum_initializers lint rule from
crates/oxc_linter/src/rules/typescript/prefer_enum_initializers.rs, together
with theorems about its behaviour.

The rule walks an AST node; when the node is a TSEnumDeclaration it iterates
the member list and, for each member whose initializer is absent and whose
name is a plain identifier, emits a diagnostic carrying the member name, the
1-based position of the member (index + 1), and the member span.
-/

/-- A byte-offset source span, as in oxc_span::Span. -/
structure Span where
  start : Nat
  end_ : Nat
  deriving DecidableEq, Repr

/-- Expressions that can appear as an enum member initializer value. -/
inductive Expression where
  | NumericLiteral (value : Nat)
  | StringLiteral (value : String)
  deriving DecidableEq, Repr

/-- The name of an enum member: a plain identifier, a string literal, or a
computed property name, as in oxc_ast::ast::TSEnumMemberName. -/
inductive TSEnumMemberName where
  | Identifier (name : String)
  | StringLiteral (value : String)
  | ComputedPropertyName (expr : Expression)
  deriving DecidableEq, Repr

/-- One member of an enum declaration: its span, its name, and an optional
initializer expression. -/
structure TSEnumMember where
  span : Span
  id : TSEnumMemberName
  initializer : Option Expression
  deriving DecidableEq, Repr

/-- A TSEnumDeclaration node: its span, its name, and its member list. -/
structure TSEnumDeclaration where
  span : Span
  id : String
  members : List TSEnumMember
  deriving DecidableEq, Repr

/-- The kind of an AST node, as in oxc_ast::AstKind (restricted to the
variants the rule can observe: the enum declaration and other kinds). -/
inductive AstKind where
  | TSEnumDeclaration (decl : TSEnumDeclaration)
  | Program
  | VariableDeclaration
  | FunctionDeclaration
  | ExpressionStatement (expr : Expression)
  deriving DecidableEq, Repr

/-- An AST node handle exposing its kind. -/
structure AstNode where
  kind : AstKind
  deriving DecidableEq, Repr

/-- Diagnostic severity, as in the miette severity attribute. -/
inductive Severity where
  | warning
  | error
  deriving DecidableEq, Repr

/-- The diagnostic struct PreferEnumInitializersDiagnostic(CompactStr, usize,
Span): the member name, the 1-based ordinal, and the labeled span. -/
structure PreferEnumInitializersDiagnostic where
  name : String
  ordinal : Nat
  span : Span
  deriving DecidableEq, Repr

/-- The rendered error message, from the error attribute template; it
interpolates only field 0 (the member name, Debug-quoted). -/
def PreferEnumInitializersDiagnostic.message
    (d : PreferEnumInitializersDiagnostic) : String :=
  "typescript-eslint(prefer-enum-initializers):The value of the member \"" ++
    d.name ++ "\" should be explicitly defined."

/-- The severity declared by the diagnostic attribute. -/
def PreferEnumInitializersDiagnostic.severity
    (_ : PreferEnumInitializersDiagnostic) : Severity :=
  Severity.warning

/-- The rendered help text, from the diagnostic help attribute; it
interpolates field 0 (the name) and field 1 (the ordinal). -/
def PreferEnumInitializersDiagnostic.help
    (d : PreferEnumInitializersDiagnostic) : String :=
  "Can be fixed to \"" ++ d.name ++ "\" = " ++ toString d.ordinal ++ "."

/-- The body of the loop in PreferEnumInitializers::run: if the member
initializer is absent and the member name is an identifier, produce the
diagnostic for this member at this index; otherwise nothing. -/
def PreferEnumInitializers.checkMember (index : Nat) (member : TSEnumMember) :
    Option PreferEnumInitializersDiagnostic :=
  if member.initializer.isNone then
    match member.id with
    | TSEnumMemberName.Identifier i => some ⟨i, index + 1, member.span⟩
    | _ => none
  else
    none

/-- The enumerate loop of PreferEnumInitializers::run over the member list,
starting at the given index, collecting diagnostics in member order. -/
def PreferEnumInitializers.runMembers (index : Nat) :
    List TSEnumMember → List PreferEnumInitializersDiagnostic
  | [] => []
  | member :: rest =>
    (PreferEnumInitializers.checkMember index member).toList ++
      PreferEnumInitializers.runMembers (index + 1) rest

/-- PreferEnumInitializers::run: match on the node kind, return the context
unchanged for every kind other than TSEnumDeclaration, and otherwise append
to the context the diagnostics of the member loop. The context list models
the diagnostics accumulated so far in ctx. -/
def PreferEnumInitializers.run (node : AstNode)
    (ctx : List PreferEnumInitializersDiagnostic) :
    List PreferEnumInitializersDiagnostic :=
  match node.kind with
  | AstKind.TSEnumDeclaration decl =>
    ctx ++ PreferEnumInitializers.runMembers 0 decl.members
  | _ => ctx

/-- One full analysis pass: visit the nodes in traversal order, invoking the
rule on each with the accumulated diagnostics. -/
def analyze (nodes : List AstNode) : List PreferEnumInitializersDiagnostic :=
  nodes.foldl (fun ctx node => PreferEnumInitializers.run node ctx) []

/-- Parsed tree of the source `enum Direction {}`. -/
def directionEmpty : TSEnumDeclaration :=
  { span := ⟨0, 17⟩, id := "Direction", members := [] }

/-- Parsed tree of the source `enum Direction { Up = 1 }`. -/
def directionUpNumeric : TSEnumDeclaration :=
  { span := ⟨0, 25⟩, id := "Direction",
    members :=
      [{ span := ⟨17, 23⟩, id := TSEnumMemberName.Identifier "Up",
         initializer := some (Expression.NumericLiteral 1) }] }

/-- Parsed tree of the source `enum Direction { Up, Down }`. -/
def directionUpDown : TSEnumDeclaration :=
  { span := ⟨0, 27⟩, id := "Direction",
    members :=
      [{ span := ⟨17, 19⟩, id := TSEnumMemberName.Identifier "Up",
         initializer := none },
       { span := ⟨21, 25⟩, id := TSEnumMemberName.Identifier "Down",
         initializer := none }] }

/-- Parsed tree of the source `enum Direction { Up = "Up", Down }` (the
string written with single quotes in the fixture). -/
def directionUpStringDown : TSEnumDeclaration :=
  { span := ⟨0, 34⟩, id := "Direction",
    members :=
      [{ span := ⟨17, 26⟩, id := TSEnumMemberName.Identifier "Up",
         initializer := some (Expression.StringLiteral "Up") },
       { span := ⟨28, 32⟩, id := TSEnumMemberName.Identifier "Down",
         initializer := none }] }

/-- An enum whose first member has a computed (non-identifier) name and no
initializer, followed by an identifier-named member without initializer. -/
def computedNameEnum : TSEnumDeclaration :=
  { span := ⟨0, 40⟩, id := "E",
    members :=
      [{ span := ⟨10, 20⟩,
         id := TSEnumMemberName.ComputedPropertyName (Expression.StringLiteral "k"),
         initializer := none },
       { span := ⟨22, 26⟩, id := TSEnumMemberName.Identifier "Down",
         initializer := none }] }

/-- An enum in which every member is initialized, with mixed numeric and
textual initializer values. -/
def statusMixed : TSEnumDeclaration :=
  { span := ⟨0, 50⟩, id := "Status",
    members :=
      [{ span := ⟨15, 23⟩, id := TSEnumMemberName.Identifier "Open",
         initializer := some (Expression.NumericLiteral 1) },
       { span := ⟨27, 43⟩, id := TSEnumMemberName.Identifier "Closed",
         initializer := some (Expression.StringLiteral "closed") }] }

/-- An enum whose sole member `Up` lacks an initializer: `Up` sits at
position 1. -/
def enumUpFirst : TSEnumDeclaration :=
  { span := ⟨0, 20⟩, id := "A",
    members :=
      [{ span := ⟨10, 12⟩, id := TSEnumMemberName.Identifier "Up",
         initializer := none }] }

/-- An enum whose second member `Up` lacks an initializer: the same member
name as in enumUpFirst, but at position 2. -/
def enumUpSecond : TSEnumDeclaration :=
  { span := ⟨0, 30⟩, id := "B",
    members :=
      [{ span := ⟨10, 19⟩, id := TSEnumMemberName.Identifier "First",
         initializer := some (Expression.NumericLiteral 1) },
       { span := ⟨21, 23⟩, id := TSEnumMemberName.Identifier "Up",
         initializer := none }] }

/-- C2: running the rule on the four literal sources yields exactly the
specified diagnostics: the empty enum and the fully initialized enum give
none; `Up, Down` gives two with ordinals 1 and 2; the string-initialized
`Up` followed by bare `Down` gives one with ordinal 2. -/
theorem C2_end_to_end_scenarios :
    PreferEnumInitializers.run ⟨AstKind.TSEnumDeclaration directionEmpty⟩ [] = [] ∧
    PreferEnumInitializers.run ⟨AstKind.TSEnumDeclaration directionUpNumeric⟩ [] = [] ∧
    PreferEnumInitializers.run ⟨AstKind.TSEnumDeclaration directionUpDown⟩ [] =
      [⟨"Up", 1, ⟨17, 19⟩⟩, ⟨"Down", 2, ⟨21, 25⟩⟩] ∧
    PreferEnumInitializers.run ⟨AstKind.TSEnumDeclaration directionUpStringDown⟩ [] =
      [⟨"Down", 2, ⟨28, 32⟩⟩] :=
  ⟨rfl, rfl, rfl, rfl⟩

/-- If the member has an initializer, the loop body produces nothing. -/
lemma checkMember_of_isSome {index : Nat} {member : TSEnumMember}
    (h : member.initializer.isSome = true) :
    PreferEnumInitializers.checkMember index member = none := by
  unfold PreferEnumInitializers.checkMember
  cases hin : member.initializer with
  | none => rw [hin] at h; simp [Option.isSome] at h
  | some v => simp [hin]

/-- The loop body produces a diagnostic exactly when the initializer is
absent and the name is an identifier, and the diagnostic then carries that
identifier, ordinal index + 1 and the member span. -/
lemma checkMember_eq_some {index : Nat} {member : TSEnumMember}
    {d : PreferEnumInitializersDiagnostic} :
    PreferEnumInitializers.checkMember index member = some d ↔
      member.initializer = none ∧
        member.id = TSEnumMemberName.Identifier d.name ∧
        d.ordinal = index + 1 ∧ d.span = member.span := by
  obtain ⟨n, o, s⟩ := d
  unfold PreferEnumInitializers.checkMember
  cases hin : member.initializer with
  | some v => simp [hin]
  | none =>
    cases hid : member.id with
    | Identifier i =>
      simp [hin, hid]
      exact fun _ =>
        ⟨fun ⟨h1, h2⟩ => ⟨h1.symm, h2.symm⟩, fun ⟨h1, h2⟩ => ⟨h1.symm, h2.symm⟩⟩
    | StringLiteral v => simp [hin, hid]
    | ComputedPropertyName e => simp [hin, hid]

/-- A member list in which every member has an initializer yields no
diagnostics from the loop, whatever the starting index. -/
lemma runMembers_all_some :
    ∀ (index : Nat) (ms : List TSEnumMember),
      (∀ m ∈ ms, m.initializer.isSome = true) →
      PreferEnumInitializers.runMembers index ms = []
  | _, [], _ => rfl
  | index, m :: rest, h => by
    unfold PreferEnumInitializers.runMembers
    rw [checkMember_of_isSome (h m (List.mem_cons_self m rest))]
    simp only [Option.toList_none, List.nil_append]
    exact runMembers_all_some (index + 1) rest
      (fun m hm => h m (List.mem_cons_of_mem _ hm))

/-- Every diagnostic produced by the member loop comes from a member at some
position i in the list: that member lacks an initializer, its name is the
identifier the diagnostic carries, the ordinal is index + i + 1, and the
diagnostic span is the member span. -/
lemma mem_runMembers {d : PreferEnumInitializersDiagnostic} :
    ∀ {index : Nat} {ms : List TSEnumMember},
      d ∈ PreferEnumInitializers.runMembers index ms →
      ∃ (i : Nat) (hi : i < ms.length),
        (ms.get ⟨i, hi⟩).initializer = none ∧
        (ms.get ⟨i, hi⟩).id = TSEnumMemberName.Identifier d.name ∧
        d.ordinal = index + i + 1 ∧ d.span = (ms.get ⟨i, hi⟩).span := by
  intro index ms
  induction ms generalizing index with
  | nil => intro h; simp [PreferEnumInitializers.runMembers] at h
  | cons m rest ih =>
    intro h
    unfold PreferEnumInitializers.runMembers at h
    rcases List.mem_append.mp h with hHead | hTail
    · have hd : PreferEnumInitializers.checkMember index m = some d := by
        cases hc : PreferEnumInitializers.checkMember index m with
        | none => rw [hc] at hHead; simp [Option.toList] at hHead
        | some d2 =>
          rw [hc] at hHead
          simp [Option.toList] at hHead
          rw [hHead]
      obtain ⟨h1, h2, h3, h4⟩ := checkMember_eq_some.mp hd
      exact ⟨0, Nat.succ_pos _, h1, h2, by simpa using h3, h4⟩
    · obtain ⟨i, hi, h1, h2, h3, h4⟩ := ih hTail
      refine ⟨i + 1, Nat.succ_lt_succ hi, h1, h2, ?_, h4⟩
      rw [h3]; omega

/-- Every diagnostic that run adds beyond the incoming context comes from an
enum node and from the member at some position i of its member list: that
member lacks an initializer, its identifier is the carried name, the ordinal
is i + 1, and the span is the member span. -/
lemma mem_run_new (node : AstNode) (ctx : List PreferEnumInitializersDiagnostic)
    (d : PreferEnumInitializersDiagnostic)
    (hd : d ∈ PreferEnumInitializers.run node ctx) (hnew : d ∉ ctx) :
    ∃ decl : TSEnumDeclaration, node.kind = AstKind.TSEnumDeclaration decl ∧
      ∃ (i : Nat) (hi : i < decl.members.length),
        (decl.members.get ⟨i, hi⟩).initializer = none ∧
        (decl.members.get ⟨i, hi⟩).id = TSEnumMemberName.Identifier d.name ∧
        d.ordinal = i + 1 ∧ d.span = (decl.members.get ⟨i, hi⟩).span := by
  unfold PreferEnumInitializers.run at hd
  cases hk : node.kind
  case TSEnumDeclaration decl =>
    rw [hk] at hd
    rcases List.mem_append.mp hd with h | h
    · exact absurd h hnew
    · obtain ⟨i, hi, h1, h2, h3, h4⟩ := mem_runMembers h
      exact ⟨decl, rfl, i, hi, h1, h2, by omega, h4⟩
  all_goals rw [hk] at hd; exact absurd hd hnew

/-- A member list whose position i holds the only member without an
initializer, that member being identifier-named, yields from the loop the
single diagnostic for it, with ordinal index + i + 1. -/
lemma runMembers_single (index : Nat) (ms : List TSEnumMember) (i : Nat)
    (hi : i < ms.length) (n : String)
    (hnone : (ms.get ⟨i, hi⟩).initializer = none)
    (hid : (ms.get ⟨i, hi⟩).id = TSEnumMemberName.Identifier n)
    (hothers : ∀ (j : Nat) (hj : j < ms.length), j ≠ i →
      (ms.get ⟨j, hj⟩).initializer.isSome = true) :
    PreferEnumInitializers.runMembers index ms =
      [⟨n, index + i + 1, (ms.get ⟨i, hi⟩).span⟩] := by
  induction ms generalizing index i with
  | nil => exact absurd hi (Nat.not_lt_zero i)
  | cons m rest ih =>
    unfold PreferEnumInitializers.runMembers
    cases i with
    | zero =>
      have hc : PreferEnumInitializers.checkMember index m =
          some ⟨n, index + 1, m.span⟩ :=
        checkMember_eq_some.mpr ⟨hnone, hid, rfl, rfl⟩
      rw [hc]
      have hrest : PreferEnumInitializers.runMembers (index + 1) rest = [] := by
        refine runMembers_all_some (index + 1) rest fun x hx => ?_
        obtain ⟨j, rfl⟩ := List.mem_iff_get.mp hx
        exact hothers (j.1 + 1) (Nat.succ_lt_succ j.2) (Nat.succ_ne_zero j.1)
      rw [hrest]
      rfl
    | succ k =>
      have hm : m.initializer.isSome = true :=
        hothers 0 (Nat.succ_pos _) (Ne.symm (Nat.succ_ne_zero k))
      rw [checkMember_of_isSome hm]
      have harith : index + 1 + k + 1 = index + (k + 1) + 1 := by omega
      have := ih (index + 1) k (Nat.lt_of_succ_lt_succ hi) hnone hid
        (fun j hj hne => hothers (j + 1) (Nat.succ_lt_succ hj)
          (fun he => hne (Nat.succ_injective he)))
      rw [this, harith]
      rfl

/-- C1: when a declaration has exactly one member lacking an initializer
(that member identifier-named), the rule adds exactly one diagnostic, whose
ordinal is the member 1-based position i + 1 in the member list, even when
other members do carry initializers. -/
theorem C1_unique_missing_member_ordinal (decl : TSEnumDeclaration)
    (ctx : List PreferEnumInitializersDiagnostic) (i : Nat)
    (hi : i < decl.members.length) (n : String)
    (hnone : (decl.members.get ⟨i, hi⟩).initializer = none)
    (hid : (decl.members.get ⟨i, hi⟩).id = TSEnumMemberName.Identifier n)
    (hothers : ∀ (j : Nat) (hj : j < decl.members.length), j ≠ i →
      (decl.members.get ⟨j, hj⟩).initializer.isSome = true) :
    PreferEnumInitializers.run ⟨AstKind.TSEnumDeclaration decl⟩ ctx =
      ctx ++ [⟨n, i + 1, (decl.members.get ⟨i, hi⟩).span⟩] := by
  show ctx ++ PreferEnumInitializers.runMembers 0 decl.members = _
  rw [runMembers_single 0 decl.members i hi n hnone hid hothers]
  norm_num

/-- C1 witness: on the parsed `enum Direction { Up = "Up", Down }`, where the
first member has an initializer and only the second lacks one, the rule adds
exactly the diagnostic of ordinal 2. -/
theorem C1_unique_missing_member_ordinal_witness :
    PreferEnumInitializers.run
        ⟨AstKind.TSEnumDeclaration directionUpStringDown⟩ [] =
      [] ++ [⟨"Down", 2, ⟨28, 32⟩⟩] :=
  C1_unique_missing_member_ordinal directionUpStringDown [] 1 (by decide)
    "Down" rfl rfl (by decide)

/-- C3: a member whose name is a computed or otherwise non-identifier form
is never flagged even when it lacks an initializer: no diagnostic the rule
adds carries the ordinal of that member position. -/
theorem C3_non_identifier_never_flagged (decl : TSEnumDeclaration)
    (ctx : List PreferEnumInitializersDiagnostic) (i : Nat)
    (hi : i < decl.members.length)
    (hnotid : ∀ n : String,
      (decl.members.get ⟨i, hi⟩).id ≠ TSEnumMemberName.Identifier n)
    (d : PreferEnumInitializersDiagnostic)
    (hd : d ∈ PreferEnumInitializers.run ⟨AstKind.TSEnumDeclaration decl⟩ ctx)
    (hnew : d ∉ ctx) :
    d.ordinal ≠ i + 1 := by
  obtain ⟨decl2, hk, j, hj, h1, h2, h3, h4⟩ := mem_run_new _ ctx d hd hnew
  injection hk with hk
  subst hk
  intro hord
  rw [h3] at hord
  have hji : j = i := by omega
  subst hji
  exact hnotid d.name h2

/-- C3 witness: on the enum whose first member has a computed name and no
initializer, the diagnostic the rule adds for the bare second member does
not carry ordinal 1, the position of the computed-name member. -/
theorem C3_non_identifier_never_flagged_witness :
    (⟨"Down", 2, ⟨22, 26⟩⟩ : PreferEnumInitializersDiagnostic).ordinal ≠ 0 + 1 :=
  C3_non_identifier_never_flagged computedNameEnum [] 0 (by decide)
    (fun n h => by simp [computedNameEnum] at h)
    ⟨"Down", 2, ⟨22, 26⟩⟩ (by decide) (by decide)

/-- C4: when every member of a declaration has an initializer, the rule
adds no diagnostic, whatever the initializer value types are. -/
theorem C4_all_initialized_no_diagnostics (decl : TSEnumDeclaration)
    (ctx : List PreferEnumInitializersDiagnostic)
    (h : ∀ m ∈ decl.members, m.initializer.isSome = true) :
    PreferEnumInitializers.run ⟨AstKind.TSEnumDeclaration decl⟩ ctx = ctx := by
  show ctx ++ PreferEnumInitializers.runMembers 0 decl.members = ctx
  rw [runMembers_all_some 0 decl.members h, List.append_nil]

/-- C4 witness: the mixed-initializer enum (one numeric value, one textual
value) produces no diagnostics. -/
theorem C4_all_initialized_no_diagnostics_witness :
    PreferEnumInitializers.run ⟨AstKind.TSEnumDeclaration statusMixed⟩ [] = [] :=
  C4_all_initialized_no_diagnostics statusMixed [] (by decide)

/-- C5: a declaration with an empty member list makes the rule add no
diagnostic. -/
theorem C5_empty_members_no_diagnostics (decl : TSEnumDeclaration)
    (ctx : List PreferEnumInitializersDiagnostic) (h : decl.members = []) :
    PreferEnumInitializers.run ⟨AstKind.TSEnumDeclaration decl⟩ ctx = ctx := by
  show ctx ++ PreferEnumInitializers.runMembers 0 decl.members = ctx
  rw [h]
  simp [PreferEnumInitializers.runMembers]

/-- C5 witness: the parsed `enum Direction {}` produces no diagnostics. -/
theorem C5_empty_members_no_diagnostics_witness :
    PreferEnumInitializers.run ⟨AstKind.TSEnumDeclaration directionEmpty⟩ [] = [] :=
  C5_empty_members_no_diagnostics directionEmpty [] rfl

/-- C6 counterexample: the message text is not of the claimed shape and is
not parameterized by the ordinal. The same member name `Up` flagged at
position 1 of enumUpFirst and at position 2 of enumUpSecond produces two
diagnostics with distinct ordinals yet byte-identical message text, and
that text is the fixed definition-template, not the claimed
initialized-template with the ordinal in it. -/
theorem C6_counterexample :
    PreferEnumInitializers.run ⟨AstKind.TSEnumDeclaration enumUpFirst⟩ [] =
      [⟨"Up", 1, ⟨10, 12⟩⟩] ∧
    PreferEnumInitializers.run ⟨AstKind.TSEnumDeclaration enumUpSecond⟩ [] =
      [⟨"Up", 2, ⟨21, 23⟩⟩] ∧
    PreferEnumInitializersDiagnostic.message ⟨"Up", 1, ⟨10, 12⟩⟩ =
      PreferEnumInitializersDiagnostic.message ⟨"Up", 2, ⟨21, 23⟩⟩ ∧
    (⟨"Up", 1, ⟨10, 12⟩⟩ : PreferEnumInitializersDiagnostic).ordinal ≠
      (⟨"Up", 2, ⟨21, 23⟩⟩ : PreferEnumInitializersDiagnostic).ordinal ∧
    PreferEnumInitializersDiagnostic.message ⟨"Up", 2, ⟨21, 23⟩⟩ ≠
      "member \"Up\" should be explicitly initialized" ∧
    PreferEnumInitializersDiagnostic.message ⟨"Up", 2, ⟨21, 23⟩⟩ ≠
      "member 2 should be explicitly initialized" :=
  ⟨rfl, rfl, rfl, by decide, by decide, by decide⟩

/-- C6 (amended): every diagnostic the rule adds flags an identifier-named
member at some position i; its message text comes from the fixed template
parameterized by the member name only, while the 1-based ordinal i + 1
appears in the help text, not in the message. -/
theorem C6_message_template (node : AstNode)
    (ctx : List PreferEnumInitializersDiagnostic)
    (d : PreferEnumInitializersDiagnostic)
    (hd : d ∈ PreferEnumInitializers.run node ctx) (hnew : d ∉ ctx) :
    ∃ decl : TSEnumDeclaration, node.kind = AstKind.TSEnumDeclaration decl ∧
      ∃ (i : Nat) (hi : i < decl.members.length),
        (decl.members.get ⟨i, hi⟩).id = TSEnumMemberName.Identifier d.name ∧
        d.ordinal = i + 1 ∧
        d.message =
          "typescript-eslint(prefer-enum-initializers):The value of the member \"" ++
            d.name ++ "\" should be explicitly defined." ∧
        d.help = "Can be fixed to \"" ++ d.name ++ "\" = " ++
          toString (i + 1) ++ "." := by
  obtain ⟨decl, hk, i, hi, h1, h2, h3, h4⟩ := mem_run_new node ctx d hd hnew
  refine ⟨decl, hk, i, hi, h2, h3, rfl, ?_⟩
  show "Can be fixed to \"" ++ d.name ++ "\" = " ++ toString d.ordinal ++ "." = _
  rw [h3]

/-- C6 witness: the diagnostic the rule adds on enumUpSecond flags `Up` at
position 2, its message is the name-only template and its help carries the
ordinal 2. -/
theorem C6_message_template_witness :
    ∃ decl : TSEnumDeclaration,
      (AstNode.mk (AstKind.TSEnumDeclaration enumUpSecond)).kind =
        AstKind.TSEnumDeclaration decl ∧
      ∃ (i : Nat) (hi : i < decl.members.length),
        (decl.members.get ⟨i, hi⟩).id =
          TSEnumMemberName.Identifier
            (⟨"Up", 2, ⟨21, 23⟩⟩ : PreferEnumInitializersDiagnostic).name ∧
        (⟨"Up", 2, ⟨21, 23⟩⟩ : PreferEnumInitializersDiagnostic).ordinal = i + 1 ∧
        PreferEnumInitializersDiagnostic.message ⟨"Up", 2, ⟨21, 23⟩⟩ =
          "typescript-eslint(prefer-enum-initializers):The value of the member \"" ++
            (⟨"Up", 2, ⟨21, 23⟩⟩ : PreferEnumInitializersDiagnostic).name ++
            "\" should be explicitly defined." ∧
        PreferEnumInitializersDiagnostic.help ⟨"Up", 2, ⟨21, 23⟩⟩ =
          "Can be fixed to \"" ++
            (⟨"Up", 2, ⟨21, 23⟩⟩ : PreferEnumInitializersDiagnostic).name ++
            "\" = " ++ toString (i + 1) ++ "." :=
  C6_message_template ⟨AstKind.TSEnumDeclaration enumUpSecond⟩ []
    ⟨"Up", 2, ⟨21, 23⟩⟩ (by decide) (by decide)

/-- C7: on every node whose kind is not TSEnumDeclaration, run returns the
accumulated diagnostics unchanged and adds nothing. -/
theorem C7_non_enum_kind_unchanged (node : AstNode)
    (ctx : List PreferEnumInitializersDiagnostic)
    (h : ∀ decl : TSEnumDeclaration,
      node.kind ≠ AstKind.TSEnumDeclaration decl) :
    PreferEnumInitializers.run node ctx = ctx := by
  unfold PreferEnumInitializers.run
  cases hk : node.kind
  case TSEnumDeclaration decl => exact absurd hk (h decl)
  all_goals rfl

/-- C7 witness: a Program node leaves a nonempty accumulated list exactly
as it was. -/
theorem C7_non_enum_kind_unchanged_witness :
    PreferEnumInitializers.run ⟨AstKind.Program⟩ [⟨"Up", 1, ⟨17, 19⟩⟩] =
      [⟨"Up", 1, ⟨17, 19⟩⟩] :=
  C7_non_enum_kind_unchanged ⟨AstKind.Program⟩ [⟨"Up", 1, ⟨17, 19⟩⟩]
    (fun _ h => AstKind.noConfusion h)

/-- C8: run is total and only ever extends the accumulated diagnostics: on
every node, including enum members with absent initializers or computed
names, it returns the context followed by some emitted list, with no
failure case in its domain. -/
theorem C8_run_total_extends (node : AstNode)
    (ctx : List PreferEnumInitializersDiagnostic) :
    ∃ emitted, PreferEnumInitializers.run node ctx = ctx ++ emitted := by
  unfold PreferEnumInitializers.run
  cases node.kind
  case TSEnumDeclaration decl => exact ⟨_, rfl⟩
  all_goals exact ⟨[], (List.append_nil ctx).symm⟩

/-- C9: the analysis is deterministic: two runs over the same tree give
the same diagnostic sequence in ordering and content. -/
theorem C9_analyze_deterministic (t1 t2 : List AstNode) (h : t1 = t2) :
    analyze t1 = analyze t2 := by
  rw [h]

/-- C9 witness: two runs of the analysis over the parsed
`enum Direction { Up, Down }` agree. -/
theorem C9_analyze_deterministic_witness :
    analyze [⟨AstKind.TSEnumDeclaration directionUpDown⟩] =
      analyze [⟨AstKind.TSEnumDeclaration directionUpDown⟩] :=
  C9_analyze_deterministic _ _ rfl

/-- C10: every diagnostic the rule adds has warning severity and its span is
the span of the flagged member at position i of the enum member list, not
the span of the enclosing declaration. -/
theorem C10_severity_and_member_span (node : AstNode)
    (ctx : List PreferEnumInitializersDiagnostic)
    (d : PreferEnumInitializersDiagnostic)
    (hd : d ∈ PreferEnumInitializers.run node ctx) (hnew : d ∉ ctx) :
    d.severity = Severity.warning ∧
      ∃ decl : TSEnumDeclaration, node.kind = AstKind.TSEnumDeclaration decl ∧
        ∃ (i : Nat) (hi : i < decl.members.length),
          d.span = (decl.members.get ⟨i, hi⟩).span ∧ d.ordinal = i + 1 := by
  obtain ⟨decl, hk, i, hi, h1, h2, h3, h4⟩ := mem_run_new node ctx d hd hnew
  exact ⟨rfl, decl, hk, i, hi, h4, h3⟩

/-- C10 witness: the first diagnostic on the parsed
`enum Direction { Up, Down }` has warning severity and the span of the
member `Up` itself. -/
theorem C10_severity_and_member_span_witness :
    (⟨"Up", 1, ⟨17, 19⟩⟩ : PreferEnumInitializersDiagnostic).severity =
      Severity.warning ∧
      ∃ decl : TSEnumDeclaration,
        (AstNode.mk (AstKind.TSEnumDeclaration directionUpDown)).kind =
          AstKind.TSEnumDeclaration decl ∧
        ∃ (i : Nat) (hi : i < decl.members.length),
          (⟨"Up", 1, ⟨17, 19⟩⟩ : PreferEnumInitializersDiagnostic).span =
            (decl.members.get ⟨i, hi⟩).span ∧
          (⟨"Up", 1, ⟨17, 19⟩⟩ : PreferEnumInitializersDiagnostic).ordinal =
            i + 1 :=
  C10_severity_and_member_span ⟨AstKind.TSEnumDeclaration directionUpDown⟩ []
    ⟨"Up", 1, ⟨17, 19⟩⟩ (by decide) (by decide)
